import Mathlib

/-!
# Verification of the Elixir-Chain multi-tier error-correcting codec

Shallow embedding of `src/error_correction/{mod,classical,bridge,quantum}.rs`.
Bytes are modelled as `Nat` with explicit `% 256` wherever `u8` arithmetic wraps;
byte buffers are `List Nat`.  Fallible Rust functions returning
`Result<Vec<u8>, ErrorCorrectionError>` become `Except ErrorCorrectionError (List Nat)`;
a Rust panic (modulo-by-zero, index out of range) is modelled as `none` in an
outer `Option` layer.
-/

set_option autoImplicit false
set_option maxRecDepth 100000

/-- The error enum of `mod.rs` (`ErrorCorrectionError`). -/
inductive ErrorCorrectionError where
  | Uncorrectable
  | InvalidData
  | AlgorithmError
  | UnsupportedType
deriving DecidableEq, Repr

open ErrorCorrectionError

/-- `u8::rotate_left`: rotate an 8-bit value left by `k` bits (the rotate
amount is taken modulo the bit width, as in Rust). -/
def rotl8 (x k : Nat) : Nat :=
  let s := k % 8
  (((x % 256) <<< s) % 256) ||| ((x % 256) >>> (8 - s))

/-- One step of the bridge checksum loop of `bridge.rs`
(`hash = hash.wrapping_add(byte); hash = hash.rotate_left(1);`). -/
def bridgeStep (acc b : Nat) : Nat :=
  rotl8 ((acc + b) % 256) 1

/-- The rolling one-byte checksum used by the bridge tier
(`bridge_encode` lines 50-55 / `bridge_decode` lines 108-112 of `bridge.rs`). -/
def bridgeHash (l : List Nat) : Nat :=
  l.foldl bridgeStep 0

/-- `BridgeErrorCorrection::bridge_encode`: header `[0xB7, R, V]`, then `R`
copies of `data ++ [checksum]`, then trailer `0xE8`. -/
def bridge_encode (R V : Nat) (data : List Nat) : Except ErrorCorrectionError (List Nat) :=
  if data = [] then .error InvalidData
  else .ok ([0xB7, R, V] ++ (List.replicate R (data ++ [bridgeHash data])).flatten ++ [0xE8])

/-- The votes collected for output position `j` in `bridge_decode`: every block
`i < R` that is complete (`block_end + 1 <= data.len()`) and whose recomputed
checksum matches the stored checksum byte contributes its byte at offset `j`. -/
def blockVotes (R block_size data_size : Nat) (body : List Nat) (j : Nat) : List Nat :=
  ((List.range R).filter (fun i =>
      decide (i * block_size + data_size + 1 ≤ body.length ∧
        bridgeHash ((body.drop (i * block_size)).take data_size) =
          body.getD (i * block_size + data_size) 0))).map
    (fun i => body.getD (i * block_size + j) 0)

/-- The argmax scan of `bridge_decode` lines 128-144: count the votes for each
byte value `0..=255` and keep the first value whose count strictly exceeds the
running maximum (ties keep the smaller byte value). -/
def majorityByte (votes : List Nat) : Nat :=
  ((List.range 256).foldl
    (fun acc b => if votes.count b > acc.1 then (votes.count b, b) else acc)
    ((0 : Nat), (0 : Nat))).2

/-- The final loop of `bridge_decode` (lines 122-145): the first position with
no surviving votes aborts the whole decode with `Uncorrectable`; otherwise each
position contributes its majority byte. -/
def collectMajority : List (List Nat) → Except ErrorCorrectionError (List Nat)
  | [] => .ok []
  | votes :: rest =>
    if votes = [] then .error Uncorrectable
    else
      match collectMajority rest with
      | .error e => .error e
      | .ok r => .ok (majorityByte votes :: r)

/-- `BridgeErrorCorrection::bridge_decode` of `bridge.rs` lines 65-148.
The instance fields are not read; everything is taken from the frame. -/
def bridge_decode (frame : List Nat) : Except ErrorCorrectionError (List Nat) :=
  if frame.length < 5 then .error InvalidData
  else if frame.getD 0 0 ≠ 0xB7 then .error InvalidData
  else if frame.getD (frame.length - 1) 0 ≠ 0xE8 then .error InvalidData
  else
    let redundancy_level := frame.getD 1 0
    if redundancy_level = 0 then .error InvalidData
    else
      let body := (frame.drop 3).dropLast
      let block_size := body.length / redundancy_level
      if block_size < 2 then .error InvalidData
      else
        let data_size := block_size - 1
        collectMajority
          ((List.range data_size).map (blockVotes redundancy_level block_size data_size body))

/-- `BridgeErrorCorrection::bridge_check` of `bridge.rs` lines 151-197:
`true` (has errors) on any malformed frame, incomplete block or checksum
mismatch; `false` only when every block verifies. -/
def bridge_check (frame : List Nat) : Bool :=
  if frame.length < 5 then true
  else if frame.getD 0 0 ≠ 0xB7 then true
  else if frame.getD (frame.length - 1) 0 ≠ 0xE8 then true
  else
    let redundancy_level := frame.getD 1 0
    if redundancy_level = 0 then true
    else
      let body := (frame.drop 3).dropLast
      let block_size := body.length / redundancy_level
      if block_size < 2 then true
      else
        !((List.range redundancy_level).all (fun i =>
          decide (i * block_size + (block_size - 1) + 1 ≤ body.length) &&
          decide (bridgeHash ((body.drop (i * block_size)).take (block_size - 1)) =
            body.getD (i * block_size + (block_size - 1)) 0)))

/-! ## Quantum tier (`quantum.rs`)

The source writes the start/trailer markers as `0xQS` / `0xQE`, which are not
valid byte literals, so the two marker values are unspecified; they are kept as
explicit parameters `QS`/`QE` of every quantum-tier function.  -/

/-- Fuelled version of slice chunking (`data.chunks(n)`); the fuel is the list
length, enough because every step consumes at least one element. -/
def chunksOfAux (n : Nat) : Nat → List Nat → List (List Nat)
  | 0, _ => []
  | _, [] => []
  | fuel + 1, l => l.take n :: chunksOfAux n fuel (l.drop n)

/-- `data.chunks(n)`: split a buffer into consecutive chunks of `n` bytes, the
last chunk possibly shorter. -/
def chunksOf (n : Nat) (l : List Nat) : List (List Nat) :=
  chunksOfAux n l.length l

/-- One syndrome measurement of `surface_encode` (lines 61-67 of `quantum.rs`):
the XOR over the chunk of each byte rotated left by `iteration + position`. -/
def chunkSyndrome (chunk : List Nat) (i : Nat) : Nat :=
  chunk.enum.foldl (fun m p => m ^^^ rotl8 p.2 (i + p.1)) 0

/-- The `S` syndrome bytes appended for one 8-byte chunk. -/
def chunkSyndromes (S : Nat) (chunk : List Nat) : List Nat :=
  (List.range S).map (chunkSyndrome chunk)

/-- `QuantumErrorCorrection::surface_encode`: header `[QS, D, S]`, then the
whole payload, then the `S` syndrome bytes of every 8-byte chunk, then the
trailer `QE`.  Note the syndromes follow the entire payload; they are not
interleaved with it. -/
def surface_encode (QS QE D S : Nat) (data : List Nat) :
    Except ErrorCorrectionError (List Nat) :=
  if data = [] then .error InvalidData
  else
    .ok ([QS, D, S] ++ data ++ ((chunksOf 8 data).map (chunkSyndromes S)).flatten ++ [QE])

/-- The error test of `surface_decode`/`surface_check`: a block is flagged when
its syndrome bytes are not all equal to the first one. -/
def syndromesDisagree : List Nat → Bool
  | [] => false
  | s0 :: rest => rest.any (fun s => s ≠ s0)

/-- `bit_flip_count[bit]` for data byte `j` in `surface_decode` lines 141-148:
the number of syndromes whose bit `bit + j` is set.  The Rust shift
`syndrome >> (bit + j)` on `u8` masks the shift amount to `(bit + j) % 8` when
overflow checks are off; that masking is reproduced here. -/
def bitFlipCount (syndromes : List Nat) (j bit : Nat) : Nat :=
  (syndromes.filter (fun s => decide ((s >>> ((bit + j) % 8)) &&& 1 ≠ 0))).length

/-- The per-byte correction of `surface_decode` lines 137-157: flip every bit
whose flip count strictly exceeds `syndrome_iterations / 2`. -/
def correctByte (syndromes : List Nat) (syndrome_iterations j byte : Nat) : Nat :=
  (List.range 8).foldl
    (fun cb bit =>
      if bitFlipCount syndromes j bit > syndrome_iterations / 2 then cb ^^^ (1 <<< bit) else cb)
    byte

/-- One block of `surface_decode`: corrected byte-by-byte when the syndromes
disagree, copied unchanged otherwise. -/
def surfaceBlock (syndrome_iterations : Nat) (block_data syndromes : List Nat) : List Nat :=
  if syndromesDisagree syndromes then
    block_data.enum.map (fun p => correctByte syndromes syndrome_iterations p.1 p.2)
  else block_data

/-- `QuantumErrorCorrection::surface_decode` of `quantum.rs` lines 81-168: the
body between header and trailer is consumed in blocks of `8 + S` bytes (8 data
bytes, then `S` syndromes); an incomplete trailing remainder is dropped. -/
def surface_decode (QS QE : Nat) (frame : List Nat) :
    Except ErrorCorrectionError (List Nat) :=
  if frame.length < 5 then .error InvalidData
  else if frame.getD 0 0 ≠ QS then .error InvalidData
  else if frame.getD (frame.length - 1) 0 ≠ QE then .error InvalidData
  else
    let code_distance := frame.getD 1 0
    let syndrome_iterations := frame.getD 2 0
    if code_distance < 3 ∨ syndrome_iterations = 0 then .error InvalidData
    else
      let body := (frame.drop 3).dropLast
      let block_size := 8 + syndrome_iterations
      let num_blocks := body.length / block_size
      .ok (((List.range num_blocks).map (fun i =>
        if (i + 1) * block_size ≤ body.length then
          surfaceBlock syndrome_iterations
            ((body.drop (i * block_size)).take 8)
            ((body.drop (i * block_size + 8)).take syndrome_iterations)
        else [])).flatten)

/-- `QuantumErrorCorrection::surface_check` of `quantum.rs` lines 171-214:
`true` on malformed frames or whenever any complete block's syndromes are not
mutually equal (`code_distance` is not validated here, matching the source). -/
def surface_check (QS QE : Nat) (frame : List Nat) : Bool :=
  if frame.length < 5 then true
  else if frame.getD 0 0 ≠ QS then true
  else if frame.getD (frame.length - 1) 0 ≠ QE then true
  else
    let syndrome_iterations := frame.getD 2 0
    if syndrome_iterations = 0 then true
    else
      let body := (frame.drop 3).dropLast
      let block_size := 8 + syndrome_iterations
      let num_blocks := body.length / block_size
      (List.range num_blocks).any (fun i =>
        !(decide ((i + 1) * block_size ≤ body.length)) ||
        syndromesDisagree ((body.drop (i * block_size + 8)).take syndrome_iterations))

example : surface_encode 81 69 5 4 [1] = .ok [81, 5, 4, 1, 1, 2, 4, 8, 69] := rfl

example : surface_decode 81 69 [81, 5, 4, 1, 1, 2, 4, 8, 69] = .ok [] := rfl

example :
    surface_encode 81 69 5 4 [1, 0, 0, 0, 0, 0, 0, 0] =
      .ok [81, 5, 4, 1, 0, 0, 0, 0, 0, 0, 0, 1, 2, 4, 8, 69] := rfl

example : surface_check 81 69 [81, 5, 4, 1, 0, 0, 0, 0, 0, 0, 0, 1, 2, 4, 8, 69] = true := rfl

example : surface_decode 81 69 [81, 3, 1, 5, 69] = .ok [] := rfl

/-! ## Classical tier (`classical.rs`)

The source writes the marker byte as `0xRS`, which is not a valid byte
literal, so the marker value is unspecified; it is kept as an explicit
parameter `MK` of every classical-tier function. -/

/-- `ClassicalErrorCorrection::reed_solomon_encode` of `classical.rs` lines
26-53.  When `parity_len = 0` the parity loop evaluates `i % 0`
(`parity[i % parity_len]`), a modulo-by-zero panic in Rust, modelled as `none`;
the loop runs because the data was already checked non-empty. -/
def reed_solomon_encode (MK redundancy : Nat) (data : List Nat) :
    Option (Except ErrorCorrectionError (List Nat)) :=
  if data = [] then some (.error InvalidData)
  else
    let parity_len := data.length * redundancy / 100
    if parity_len = 0 then none
    else
      let parity := data.enum.foldl
        (fun par p => par.set (p.1 % parity_len) (par.getD (p.1 % parity_len) 0 ^^^ p.2))
        (List.replicate parity_len 0)
      some (.ok (data ++ [MK, redundancy] ++ parity))

/-- Modelled from the spec: `reed_solomon_decode` in `classical.rs` (lines
56-75) references `parity_len` on lines 58 and 63 before any definition, so the
source does not compile (spec §9 flags this ordering bug).  The undefined
quantity is kept here as an explicit parameter `pl`; line 64's shadowing
`parity_len` computed from the total length and the stored redundancy byte is
the local `parity_len` below.  Index arithmetic uses truncating `Nat`
subtraction with a defaulted read, standing in for the unspecified value. -/
def reed_solomon_decode (MK pl : Nat) (data : List Nat) :
    Except ErrorCorrectionError (List Nat) :=
  if data.length < 3 ∨ data.getD (data.length - pl - 2) 0 ≠ MK then .error InvalidData
  else
    let redundancy := data.getD (data.length - pl - 1) 0
    let parity_len := data.length * redundancy / 100
    let original_data_len := data.length - parity_len - 2
    .ok (data.take original_data_len)

/-- `ClassicalErrorCorrection::reed_solomon_check` of `classical.rs` lines
78-95: any buffer shorter than 3 bytes or without the marker in its
second-to-last position "can't be checked" and counts as clean; otherwise the
buffer is clean exactly when the low nibble of its final byte is zero. -/
def reed_solomon_check (MK : Nat) (data : List Nat) : Bool :=
  if data.length < 3 then true
  else if data.getD (data.length - 2) 0 ≠ MK then true
  else !(decide (data.getLastD 0 &&& 0x0F ≠ 0))

/-! ## Codec instances (`mod.rs` and the `impl` blocks) -/

/-- The classical codec instance: a redundancy percentage. -/
structure ClassicalErrorCorrection where
  redundancy : Nat
deriving DecidableEq, Repr

/-- `ClassicalErrorCorrection::new`: clamp the redundancy to `[5, 30]`
(`redundancy.min(30).max(5)`). -/
def ClassicalErrorCorrection.new (redundancy : Nat) : ClassicalErrorCorrection :=
  ⟨max (min redundancy 30) 5⟩

def ClassicalErrorCorrection.encode (self : ClassicalErrorCorrection) (MK : Nat)
    (data : List Nat) : Option (Except ErrorCorrectionError (List Nat)) :=
  reed_solomon_encode MK self.redundancy data

def ClassicalErrorCorrection.decode (_self : ClassicalErrorCorrection) (MK pl : Nat)
    (data : List Nat) : Except ErrorCorrectionError (List Nat) :=
  reed_solomon_decode MK pl data

def ClassicalErrorCorrection.has_errors (_self : ClassicalErrorCorrection) (MK : Nat)
    (data : List Nat) : Bool :=
  !(reed_solomon_check MK data)

/-- The bridge codec instance: redundancy level and verification iterations. -/
structure BridgeErrorCorrection where
  redundancy_level : Nat
  verification_iterations : Nat
deriving DecidableEq, Repr

/-- `BridgeErrorCorrection::new`: triple redundancy, two verification passes. -/
def BridgeErrorCorrection.new : BridgeErrorCorrection := ⟨3, 2⟩

/-- `BridgeErrorCorrection::with_params`: both parameters clamped to `[1, 5]`
(`x.max(1).min(5)`). -/
def BridgeErrorCorrection.with_params (redundancy_level verification_iterations : Nat) :
    BridgeErrorCorrection :=
  ⟨min (max redundancy_level 1) 5, min (max verification_iterations 1) 5⟩

def BridgeErrorCorrection.encode (self : BridgeErrorCorrection) (data : List Nat) :
    Except ErrorCorrectionError (List Nat) :=
  bridge_encode self.redundancy_level self.verification_iterations data

def BridgeErrorCorrection.decode (_self : BridgeErrorCorrection) (data : List Nat) :
    Except ErrorCorrectionError (List Nat) :=
  bridge_decode data

def BridgeErrorCorrection.has_errors (_self : BridgeErrorCorrection) (data : List Nat) : Bool :=
  bridge_check data

/-- The quantum codec instance: code distance and syndrome iterations. -/
structure QuantumErrorCorrection where
  code_distance : Nat
  syndrome_iterations : Nat
deriving DecidableEq, Repr

/-- `QuantumErrorCorrection::new`: distance 5, four syndrome iterations. -/
def QuantumErrorCorrection.new : QuantumErrorCorrection := ⟨5, 4⟩

/-- `QuantumErrorCorrection::with_params`: the distance is bumped to the next
odd value when even, then clamped to `[3, 15]`; iterations clamped to
`[1, 10]`. -/
def QuantumErrorCorrection.with_params (code_distance syndrome_iterations : Nat) :
    QuantumErrorCorrection :=
  ⟨min (max (if code_distance % 2 = 1 then code_distance else code_distance + 1) 3) 15,
   min (max syndrome_iterations 1) 10⟩

def QuantumErrorCorrection.encode (self : QuantumErrorCorrection) (QS QE : Nat)
    (data : List Nat) : Except ErrorCorrectionError (List Nat) :=
  surface_encode QS QE self.code_distance self.syndrome_iterations data

def QuantumErrorCorrection.decode (_self : QuantumErrorCorrection) (QS QE : Nat)
    (data : List Nat) : Except ErrorCorrectionError (List Nat) :=
  surface_decode QS QE data

def QuantumErrorCorrection.has_errors (_self : QuantumErrorCorrection) (QS QE : Nat)
    (data : List Nat) : Bool :=
  surface_check QS QE data

/-- `ComprehensiveErrorCorrection` of `mod.rs`: the three tiers combined. -/
structure ComprehensiveErrorCorrection where
  classical : ClassicalErrorCorrection
  bridge : BridgeErrorCorrection
  quantum : QuantumErrorCorrection
deriving DecidableEq, Repr

/-- `ComprehensiveErrorCorrection::new`: classical at 10% redundancy plus the
bridge and quantum defaults. -/
def ComprehensiveErrorCorrection.new : ComprehensiveErrorCorrection :=
  ⟨ClassicalErrorCorrection.new 10, BridgeErrorCorrection.new, QuantumErrorCorrection.new⟩

/-- `ComprehensiveErrorCorrection::encode`: classical, then bridge, then
quantum; a classical panic propagates as `none`. -/
def ComprehensiveErrorCorrection.encode (self : ComprehensiveErrorCorrection)
    (MK QS QE : Nat) (data : List Nat) :
    Option (Except ErrorCorrectionError (List Nat)) :=
  match self.classical.encode MK data with
  | none => none
  | some (.error e) => some (.error e)
  | some (.ok classical_encoded) =>
    match self.bridge.encode classical_encoded with
    | .error e => some (.error e)
    | .ok bridge_encoded => some (self.quantum.encode QS QE bridge_encoded)

/-- `ComprehensiveErrorCorrection::decode`: quantum, then bridge, then the
(spec-modelled) classical decode, mirroring the encode order. -/
def ComprehensiveErrorCorrection.decode (self : ComprehensiveErrorCorrection)
    (MK pl QS QE : Nat) (data : List Nat) :
    Except ErrorCorrectionError (List Nat) :=
  match self.quantum.decode QS QE data with
  | .error e => .error e
  | .ok quantum_decoded =>
    match self.bridge.decode quantum_decoded with
    | .error e => .error e
    | .ok bridge_decoded => self.classical.decode MK pl bridge_decoded

/-- `ComprehensiveErrorCorrection::has_errors`: the three tiers' checks, each
over the whole buffer, OR-ed in the source's order. -/
def ComprehensiveErrorCorrection.has_errors (self : ComprehensiveErrorCorrection)
    (MK QS QE : Nat) (data : List Nat) : Bool :=
  self.quantum.has_errors QS QE data ||
  self.bridge.has_errors data ||
  self.classical.has_errors MK data

example : reed_solomon_encode 82 8 [65] = none := rfl

example : reed_solomon_encode 82 25 [65, 66, 67, 68] = some (.ok [65, 66, 67, 68, 82, 25, 4]) := rfl

example : reed_solomon_check 82 [0, 82, 16] = true := rfl

example : reed_solomon_check 82 [0, 82, 17] = false := rfl

example : ClassicalErrorCorrection.has_errors ⟨8⟩ 82 [0, 1] = false := rfl

example : bridgeHash [10] = 20 := by decide

/-! ## Claim theorems (part 1: evaluations and instance independence)

The quantum markers are instantiated with the representative values
`QS = 81`, `QE = 69` and the classical marker with `MK = 82` in closed
statements; every refutation below is independent of the choice, because the
frames involved carry whatever marker value encode wrote into them. -/

/-- Claim C1: the round-trip `decode(encode(p)) = p` fails on the code.  With
the quantum tier's default parameters (distance 5, 4 syndrome iterations), the
one-byte payload `[1]` encodes successfully, but decoding the unaltered frame
returns the empty payload: the body (1 data byte + 4 syndrome bytes) is shorter
than the `8 + 4`-byte block the decoder consumes, so it is silently dropped. -/
theorem quantum_roundtrip_failure :
    QuantumErrorCorrection.new.encode 81 69 [1] = .ok [81, 5, 4, 1, 1, 2, 4, 8, 69] ∧
    QuantumErrorCorrection.new.decode 81 69 [81, 5, 4, 1, 1, 2, 4, 8, 69] = .ok [] ∧
    ([] : List Nat) ≠ [1] :=
  ⟨rfl, rfl, by decide⟩

/-- Claim C2: `has_errors(encode(p)) = false` fails on the code.  With the
quantum tier's defaults, the 8-byte payload `[1,0,0,0,0,0,0,0]` produces the
four distinct syndrome bytes `1, 2, 4, 8` (`rotate_left(1, i)` for iteration
`i`), so the freshly encoded, unaltered frame is flagged as erroneous. -/
theorem quantum_freshness_failure :
    QuantumErrorCorrection.new.encode 81 69 [1, 0, 0, 0, 0, 0, 0, 0] =
      .ok [81, 5, 4, 1, 0, 0, 0, 0, 0, 0, 0, 1, 2, 4, 8, 69] ∧
    QuantumErrorCorrection.new.has_errors 81 69
      [81, 5, 4, 1, 0, 0, 0, 0, 0, 0, 0, 1, 2, 4, 8, 69] = true :=
  ⟨rfl, rfl⟩

/-- Claim C3: `encode` can panic.  The factory's classical codec
(`ClassicalErrorCorrection::new(8)`) on the one-byte payload `[0x41]` computes
`parity_len = 1 * 8 / 100 = 0` and then evaluates `parity[i % parity_len]`, a
modulo-by-zero panic (modelled as `none`), for any marker byte value. -/
theorem classical_encode_panics (MK : Nat) :
    (ClassicalErrorCorrection.new 8).encode MK [0x41] = none := rfl

/-- Claim C6: for every tier, `decode` and `has_errors` are functions of the
frame bytes alone; two instances constructed with different
redundancy/verification/distance/iteration settings agree on every frame.
The classical tier's decode is the spec-modelled resolution of the source's
undefined `parity_len` (kept as the parameter `pl`, the same on both sides,
since it is a leftover of the source bug and not an instance field). -/
theorem decode_check_instance_independent
    (c c' : ClassicalErrorCorrection) (b b' : BridgeErrorCorrection)
    (q q' : QuantumErrorCorrection) (m m' : ComprehensiveErrorCorrection)
    (MK pl QS QE : Nat) (frame : List Nat) :
    (c.decode MK pl frame = c'.decode MK pl frame ∧
      c.has_errors MK frame = c'.has_errors MK frame) ∧
    (b.decode frame = b'.decode frame ∧ b.has_errors frame = b'.has_errors frame) ∧
    (q.decode QS QE frame = q'.decode QS QE frame ∧
      q.has_errors QS QE frame = q'.has_errors QS QE frame) ∧
    (m.decode MK pl QS QE frame = m'.decode MK pl QS QE frame ∧
      m.has_errors MK QS QE frame = m'.has_errors MK QS QE frame) :=
  ⟨⟨rfl, rfl⟩, ⟨rfl, rfl⟩, ⟨rfl, rfl⟩, ⟨rfl, rfl⟩⟩

/-- Claim C7: every tier rejects the empty payload with `InvalidData`; the
comprehensive tier inherits the rejection from its classical stage. -/
theorem empty_payload_rejected
    (c : ClassicalErrorCorrection) (b : BridgeErrorCorrection)
    (q : QuantumErrorCorrection) (m : ComprehensiveErrorCorrection) (MK QS QE : Nat) :
    c.encode MK [] = some (.error InvalidData) ∧
    b.encode [] = .error InvalidData ∧
    q.encode QS QE [] = .error InvalidData ∧
    m.encode MK QS QE [] = some (.error InvalidData) :=
  ⟨rfl, rfl, rfl, rfl⟩

/-- Claim C8 (counterexample): the claim "has_errors returns true whenever the
low nibble of the final byte is nonzero" fails.  The two-byte buffer `[0, 1]`
has final low nibble `1`, yet `reed_solomon_check` returns clean for any
marker, because every buffer shorter than 3 bytes "can't be checked". -/
theorem classical_check_heuristic_counterexample :
    (ClassicalErrorCorrection.new 8).has_errors 82 [0, 1] = false ∧ (1 : Nat) &&& 0x0F ≠ 0 :=
  ⟨rfl, by decide⟩

/-- Claim C8 (amended): classical `has_errors` returns `true` exactly when the
buffer is at least 3 bytes long, its second-to-last byte equals the marker,
and the low nibble of its final byte is nonzero; in every other case it
reports clean. -/
theorem classical_has_errors_marker_nibble (c : ClassicalErrorCorrection) (MK : Nat)
    (d : List Nat) :
    c.has_errors MK d =
      (decide (3 ≤ d.length) && decide (d.getD (d.length - 2) 0 = MK) &&
        decide (d.getLastD 0 &&& 0x0F ≠ 0)) := by
  unfold ClassicalErrorCorrection.has_errors reed_solomon_check
  split_ifs with h1 h2
  · have e1 : decide (3 ≤ d.length) = false := decide_eq_false (by omega)
    rw [e1]
    simp
  · have e2 : decide (d.getD (d.length - 2) 0 = MK) = false := decide_eq_false h2
    rw [e2]
    simp
  · have e1 : decide (3 ≤ d.length) = true := decide_eq_true (by omega)
    have e2 : decide (d.getD (d.length - 2) 0 = MK) = true := decide_eq_true (not_not.mp h2)
    rw [e1, e2]
    simp [Bool.not_not]

/-- Claim C9: the comprehensive check always reports errors.  If the quantum
check passed, the buffer's first byte would equal the quantum start marker,
and as long as that marker differs from the bridge marker `0xB7` the bridge
check must then fail, so the OR of the three checks is always `true`. -/
theorem comprehensive_always_flags (m : ComprehensiveErrorCorrection) (MK QS QE : Nat)
    (d : List Nat) (h : QS ≠ 0xB7) :
    m.has_errors MK QS QE d = true := by
  unfold ComprehensiveErrorCorrection.has_errors QuantumErrorCorrection.has_errors
    BridgeErrorCorrection.has_errors
  by_cases hq : surface_check QS QE d = true
  · simp [hq]
  · have hq' : surface_check QS QE d = false := by
      cases hsc : surface_check QS QE d
      · rfl
      · exact absurd hsc hq
    have hmark : d.getD 0 0 = QS := by
      unfold surface_check at hq'
      split_ifs at hq' with h1 h2 h3
      exact not_not.mp h2
    have hb : bridge_check d = true := by
      unfold bridge_check
      split_ifs with h1 h2 <;>
        first
          | rfl
          | exact absurd (hmark.symm.trans (not_not.mp h2)) h
    simp [hb]

/-- Witness for C9 at a concrete instance, markers and buffer. -/
theorem comprehensive_always_flags_witness :
    ComprehensiveErrorCorrection.new.has_errors 82 81 69 [1, 2, 3] = true :=
  comprehensive_always_flags ComprehensiveErrorCorrection.new 82 81 69 [1, 2, 3] (by decide)

/-! ## Bridge checksum algebra

A single corrupted byte always changes the rolling checksum: each loop step is
a bijection of the byte range in both arguments, so two buffers differing in
exactly one byte hash differently. -/

/-- Inverse of `rotate_left(1)` on the byte range. -/
def rotr8one (x : Nat) : Nat := (x >>> 1) ||| ((x &&& 1) <<< 7)

lemma rotr8one_rotl8 : ∀ x < 256, rotr8one (rotl8 x 1) = x := by decide

lemma rotl8_lt (x k : Nat) : rotl8 x k < 256 := by
  unfold rotl8
  have h1 : ((x % 256) <<< (k % 8)) % 256 < 256 := Nat.mod_lt _ (by norm_num)
  have h2 : (x % 256) >>> (8 - k % 8) < 256 := by
    calc (x % 256) >>> (8 - k % 8) ≤ x % 256 := by
          rw [Nat.shiftRight_eq_div_pow]
          exact Nat.div_le_self _ _
      _ < 256 := Nat.mod_lt _ (by norm_num)
  have := Nat.or_lt_two_pow (n := 8) h1 h2
  simpa using this

lemma rotl8_one_inj {x y : Nat} (hx : x < 256) (hy : y < 256)
    (h : rotl8 x 1 = rotl8 y 1) : x = y := by
  have h1 := rotr8one_rotl8 x hx
  have h2 := rotr8one_rotl8 y hy
  rw [← h1, ← h2, h]

lemma bridgeStep_lt (acc b : Nat) : bridgeStep acc b < 256 := rotl8_lt _ _

lemma bridgeStep_inj_acc {a a' : Nat} (b : Nat) (ha : a < 256) (ha' : a' < 256)
    (h : bridgeStep a b = bridgeStep a' b) : a = a' := by
  have h2 : (a + b) % 256 = (a' + b) % 256 :=
    rotl8_one_inj (Nat.mod_lt _ (by norm_num)) (Nat.mod_lt _ (by norm_num)) h
  omega

lemma bridgeStep_inj_b {b b' : Nat} (a : Nat) (hb : b < 256) (hb' : b' < 256)
    (h : bridgeStep a b = bridgeStep a b') : b = b' := by
  have h2 : (a + b) % 256 = (a + b') % 256 :=
    rotl8_one_inj (Nat.mod_lt _ (by norm_num)) (Nat.mod_lt _ (by norm_num)) h
  omega

lemma foldl_bridgeStep_ne :
    ∀ (l : List Nat) {a a' : Nat}, a < 256 → a' < 256 → a ≠ a' →
      l.foldl bridgeStep a ≠ l.foldl bridgeStep a' := by
  intro l
  induction l with
  | nil => intro a a' _ _ hne; exact hne
  | cons b t ih =>
    intro a a' ha ha' hne
    simp only [List.foldl_cons]
    exact ih (bridgeStep_lt a b) (bridgeStep_lt a' b)
      (fun he => hne (bridgeStep_inj_acc b ha ha' he))

lemma foldl_bridgeStep_lt : ∀ (l : List Nat) {a : Nat}, a < 256 → l.foldl bridgeStep a < 256 := by
  intro l
  induction l with
  | nil => intro a ha; exact ha
  | cons b t ih => intro a _; exact ih (bridgeStep_lt a b)

lemma bridgeHash_lt (l : List Nat) : bridgeHash l < 256 :=
  foldl_bridgeStep_lt l (by norm_num)

lemma bridgeHash_set_ne (l : List Nat) (pos v : Nat)
    (hl : ∀ b ∈ l, b < 256) (hv : v < 256) (hpos : pos < l.length)
    (hne : v ≠ l.getD pos 0) :
    bridgeHash (l.set pos v) ≠ bridgeHash l := by
  have hdec : l.set pos v = l.take pos ++ v :: l.drop (pos + 1) := by
    rw [List.set_eq_take_append_cons_drop, if_pos hpos]
  have hgd : l.getD pos 0 = l[pos] := List.getD_eq_getElem l 0 hpos
  have hdec' : l = l.take pos ++ l[pos] :: l.drop (pos + 1) := by
    conv_lhs => rw [← List.take_append_drop pos l]
    rw [List.drop_eq_getElem_cons hpos]
  unfold bridgeHash
  rw [hdec]
  conv_rhs => rw [hdec']
  rw [List.foldl_append, List.foldl_append]
  simp only [List.foldl_cons]
  have hacc : l.foldl bridgeStep 0 < 256 := bridgeHash_lt l
  have haccp : (l.take pos).foldl bridgeStep 0 < 256 := foldl_bridgeStep_lt _ (by norm_num)
  have hmem : l[pos] ∈ l := List.getElem_mem hpos
  refine foldl_bridgeStep_ne _ (bridgeStep_lt _ _) (bridgeStep_lt _ _) ?_
  intro he
  exact hne (hgd ▸ bridgeStep_inj_b _ hv (hl _ hmem) he)

/-! ## Extracting blocks from a flattened uniform block list -/

lemma flatten_uniform_length (blocks : List (List Nat)) (L : Nat)
    (hL : ∀ b ∈ blocks, b.length = L) :
    blocks.flatten.length = blocks.length * L := by
  rw [List.length_flatten]
  have : blocks.map List.length = List.replicate blocks.length L := by
    apply List.eq_replicate_iff.mpr
    constructor
    · simp
    · intro x hx
      obtain ⟨b, hb, rfl⟩ := List.mem_map.mp hx
      exact hL b hb
  rw [this, List.sum_const_nat]

lemma flatten_uniform_drop (blocks : List (List Nat)) (L : Nat)
    (hL : ∀ b ∈ blocks, b.length = L) :
    ∀ i, blocks.flatten.drop (i * L) = (blocks.drop i).flatten := by
  intro i
  induction i generalizing blocks with
  | zero => simp
  | succ n ih =>
    cases blocks with
    | nil => simp
    | cons B bs =>
      have hB : B.length = L := hL B (List.mem_cons_self B bs)
      have hbs : ∀ b ∈ bs, b.length = L := fun b hb => hL b (List.mem_cons_of_mem B hb)
      have h1 : (n + 1) * L = B.length + n * L := by rw [hB]; ring
      calc ((B :: bs).flatten).drop ((n + 1) * L)
          = (B ++ bs.flatten).drop (B.length + n * L) := by rw [List.flatten_cons, h1]
        _ = ((B ++ bs.flatten).drop B.length).drop (n * L) := by rw [List.drop_drop]
        _ = bs.flatten.drop (n * L) := by rw [List.drop_left]
        _ = (bs.drop n).flatten := ih bs hbs
        _ = ((B :: bs).drop (n + 1)).flatten := by rw [List.drop_succ_cons]

lemma flatten_uniform_take_block (blocks : List (List Nat)) (L i t : Nat)
    (hL : ∀ b ∈ blocks, b.length = L) (hi : i < blocks.length) (ht : t ≤ L) :
    (blocks.flatten.drop (i * L)).take t = (blocks.getD i []).take t := by
  rw [flatten_uniform_drop blocks L hL i, List.drop_eq_getElem_cons hi, List.flatten_cons,
    List.take_append_eq_append_take]
  have hlen : blocks[i].length = L := hL _ (List.getElem_mem hi)
  rw [List.getD_eq_getElem blocks [] hi]
  rw [hlen, Nat.sub_eq_zero_of_le ht]
  simp

lemma flatten_uniform_getD (blocks : List (List Nat)) (L i j : Nat)
    (hL : ∀ b ∈ blocks, b.length = L) (hi : i < blocks.length) (hj : j < L) :
    blocks.flatten.getD (i * L + j) 0 = (blocks.getD i []).getD j 0 := by
  have h1 : blocks.flatten.getD (i * L + j) 0 = (blocks.flatten.drop (i * L)).getD j 0 := by
    rw [List.getD_eq_getElem?_getD, List.getD_eq_getElem?_getD, List.getElem?_drop]
  rw [h1, flatten_uniform_drop blocks L hL i, List.drop_eq_getElem_cons hi, List.flatten_cons]
  have hlen : blocks[i].length = L := hL _ (List.getElem_mem hi)
  have h2 : blocks.getD i [] = blocks[i] := List.getD_eq_getElem blocks [] hi
  rw [h2, List.getD_eq_getElem?_getD, List.getD_eq_getElem?_getD,
    List.getElem?_append_left (by omega)]

/-! ## The majority-vote scan -/

lemma argmax_foldl_const (f : Nat → Nat) (l : List Nat) (s : Nat × Nat)
    (h : ∀ b ∈ l, f b ≤ s.1) :
    l.foldl (fun acc b => if f b > acc.1 then (f b, b) else acc) s = s := by
  induction l generalizing s with
  | nil => rfl
  | cons b t ih =>
    have hb : ¬ (f b > s.1) := by
      have := h b (List.mem_cons_self b t)
      omega
    simp only [List.foldl_cons, if_neg hb]
    exact ih s (fun x hx => h x (List.mem_cons_of_mem b hx))

/-- If every vote is the byte value `v < 256` and there is at least one vote,
the argmax scan of `bridge_decode` elects `v`. -/
lemma majorityByte_const (votes : List Nat) (v : Nat)
    (hne : votes ≠ []) (hall : ∀ x ∈ votes, x = v) (hv : v < 256) :
    majorityByte votes = v := by
  have hcount_v : votes.count v = votes.length := by
    rw [List.count_eq_length]
    intro b hb
    rw [hall b hb]
  have hcount_ne : ∀ b, b ≠ v → votes.count b = 0 := by
    intro b hb
    rw [List.count_eq_zero]
    intro hmem
    exact hb (hall b hmem)
  have hpos : 0 < votes.length := List.length_pos.mpr hne
  unfold majorityByte
  have hsplit : (256 : Nat) = (v + 1) + (255 - v) := by omega
  rw [hsplit, List.range_add, List.range_succ, List.foldl_append, List.foldl_append]
  have h1 : (List.range v).foldl
      (fun acc b => if votes.count b > acc.1 then (votes.count b, b) else acc)
      ((0 : Nat), (0 : Nat)) = ((0 : Nat), (0 : Nat)) := by
    apply argmax_foldl_const
    intro b hb
    have hbv : b ≠ v := by
      have := List.mem_range.mp hb
      omega
    rw [hcount_ne b hbv]
  rw [h1]
  have h2 : List.foldl (fun acc b => if votes.count b > acc.1 then (votes.count b, b) else acc)
      ((0 : Nat), (0 : Nat)) [v] = (votes.count v, v) := by
    simp only [List.foldl_cons, List.foldl_nil]
    rw [if_pos (show votes.count v > 0 by rw [hcount_v]; exact hpos)]
  rw [h2]
  have h3 : (List.map (fun i => v + 1 + i) (List.range (255 - v))).foldl
      (fun acc b => if votes.count b > acc.1 then (votes.count b, b) else acc)
      (votes.count v, v) = (votes.count v, v) := by
    apply argmax_foldl_const
    intro b hb
    obtain ⟨i, _, rfl⟩ := List.mem_map.mp hb
    have hbv : v + 1 + i ≠ v := by omega
    rw [hcount_ne _ hbv]
    exact Nat.zero_le _
  rw [h3]

lemma collectMajority_ok (votesList : List (List Nat)) (h : ∀ v ∈ votesList, v ≠ []) :
    collectMajority votesList = .ok (votesList.map majorityByte) := by
  induction votesList with
  | nil => rfl
  | cons v t ih =>
    simp only [collectMajority]
    rw [if_neg (h v (List.mem_cons_self v t))]
    rw [ih (fun x hx => h x (List.mem_cons_of_mem v hx))]
    rfl

lemma getD_concat_last (l : List Nat) (a : Nat) :
    (l ++ [a]).getD ((l ++ [a]).length - 1) 0 = a := by
  rw [List.getD_eq_getElem?_getD]
  have hlen : (l ++ [a]).length - 1 = l.length := by simp
  rw [hlen, List.getElem?_append_right (Nat.le_refl _)]
  simp

/-! ## Claim theorems (part 2: the bridge decode paths) -/

/-- Claim C5: a structurally well-formed bridge frame (markers in place,
nonzero redundancy byte, block size at least 2) in which every complete block
fails its checksum verification decodes to the `Uncorrectable` error: the very
first output position has no surviving votes. -/
theorem bridge_all_blocks_bad_uncorrectable (frame body : List Nat) (R bs : Nat)
    (hRdef : R = frame.getD 1 0)
    (hbodydef : body = (frame.drop 3).dropLast)
    (hbsdef : bs = body.length / R)
    (h5 : 5 ≤ frame.length)
    (hb7 : frame.getD 0 0 = 0xB7)
    (he8 : frame.getD (frame.length - 1) 0 = 0xE8)
    (hR1 : 1 ≤ R)
    (hbs2 : 2 ≤ bs)
    (hbad : ∀ i, i < R → i * bs + (bs - 1) + 1 ≤ body.length →
      bridgeHash ((body.drop (i * bs)).take (bs - 1)) ≠ body.getD (i * bs + (bs - 1)) 0) :
    bridge_decode frame = .error Uncorrectable := by
  unfold bridge_decode
  rw [if_neg (Nat.not_lt.mpr h5)]
  rw [if_neg (by rw [hb7]; simp)]
  rw [if_neg (by rw [he8]; simp)]
  simp only []
  rw [← hRdef, ← hbodydef, ← hbsdef]
  rw [if_neg (by omega)]
  rw [if_neg (Nat.not_lt.mpr hbs2)]
  obtain ⟨m, hm⟩ : ∃ m, bs - 1 = m + 1 := ⟨bs - 2, by omega⟩
  rw [hm, List.range_succ_eq_map, List.map_cons]
  have hempty : blockVotes R bs (m + 1) body 0 = [] := by
    unfold blockVotes
    rw [List.filter_eq_nil_iff.mpr ?_]
    · rfl
    intro i hi
    simp only [decide_eq_true_eq, not_and]
    intro hcomp
    rw [← hm] at hcomp ⊢
    exact hbad i (List.mem_range.mp hi) hcomp
  rw [hempty]
  rfl

/-- Witness for C5: a one-block frame whose single checksum byte is wrong. -/
theorem bridge_all_blocks_bad_uncorrectable_witness :
    bridge_decode [0xB7, 1, 1, 5, 9, 0xE8] = .error Uncorrectable :=
  bridge_all_blocks_bad_uncorrectable [0xB7, 1, 1, 5, 9, 0xE8] [5, 9] 1 2
    rfl rfl rfl (by decide) rfl rfl (by decide) (by decide) (by decide)

lemma set_oob (l : List Nat) (n : Nat) (a : Nat) (h : l.length ≤ n) : l.set n a = l := by
  induction l generalizing n with
  | nil => rfl
  | cons x t ih =>
    cases n with
    | zero => simp at h
    | succ m =>
      rw [List.set_cons_succ, ih m (by simpa using h)]

lemma flatten_uniform_set (blocks : List (List Nat)) (L : Nat)
    (hL : ∀ b ∈ blocks, b.length = L) :
    ∀ (i pos a : Nat), i < blocks.length → pos < L →
      blocks.flatten.set (i * L + pos) a =
        (blocks.set i ((blocks.getD i []).set pos a)).flatten := by
  induction blocks with
  | nil =>
    intro i pos a hi _
    simp at hi
  | cons B bs ih =>
    intro i pos a hi hpos
    have hB : B.length = L := hL B (List.mem_cons_self B bs)
    have hbs : ∀ b ∈ bs, b.length = L := fun b hb => hL b (List.mem_cons_of_mem B hb)
    cases i with
    | zero =>
      simp only [List.flatten_cons, Nat.zero_mul, Nat.zero_add]
      rw [List.set_append, if_pos (by omega)]
      rw [List.set_cons_zero, List.getD_cons_zero, List.flatten_cons]
    | succ n =>
      simp only [List.flatten_cons]
      rw [List.set_append, if_neg ?_, List.set_cons_succ, List.getD_cons_succ,
        List.flatten_cons]
      · have harith : (n + 1) * L + pos - B.length = n * L + pos := by
          have h1 : (n + 1) * L = n * L + L := by ring
          omega
        rw [harith, ih hbs n pos a (by simpa using hi) hpos]
      · have h1 : (n + 1) * L = n * L + L := by ring
        omega

lemma blockVotes_structured (R L : Nat) (blocks : List (List Nat))
    (hlen : blocks.length = R) (hL : ∀ b ∈ blocks, b.length = L) (hL2 : 2 ≤ L) (j : Nat) :
    blockVotes R L (L - 1) blocks.flatten j =
      ((List.range R).filter (fun i =>
        decide (bridgeHash ((blocks.getD i []).take (L - 1)) =
          (blocks.getD i []).getD (L - 1) 0))).map
        (fun i => blocks.flatten.getD (i * L + j) 0) := by
  unfold blockVotes
  congr 1
  apply List.filter_congr
  intro i hi
  have hiR : i < R := List.mem_range.mp hi
  have hib : i < blocks.length := by omega
  have harith : i * L + (L - 1) + 1 = (i + 1) * L := by
    have h1 : (i + 1) * L = i * L + L := by ring
    omega
  have hcomp : i * L + (L - 1) + 1 ≤ blocks.flatten.length := by
    rw [flatten_uniform_length blocks L hL, hlen, harith]
    exact Nat.mul_le_mul_right L (by omega)
  have hslice : (blocks.flatten.drop (i * L)).take (L - 1) = (blocks.getD i []).take (L - 1) :=
    flatten_uniform_take_block blocks L i (L - 1) hL hib (by omega)
  have hstored : blocks.flatten.getD (i * L + (L - 1)) 0 = (blocks.getD i []).getD (L - 1) 0 :=
    flatten_uniform_getD blocks L i (L - 1) hL hib (by omega)
  rw [hslice, hstored]
  rw [decide_eq_decide]
  constructor
  · rintro ⟨_, hb⟩
    exact hb
  · intro hb
    exact ⟨hcomp, hb⟩

lemma bridge_decode_structured (R V L : Nat) (blocks : List (List Nat))
    (hlen : blocks.length = R) (hL : ∀ b ∈ blocks, b.length = L)
    (hR1 : 1 ≤ R) (hL2 : 2 ≤ L) :
    bridge_decode ([0xB7, R, V] ++ blocks.flatten ++ [0xE8]) =
      collectMajority ((List.range (L - 1)).map (fun j =>
        ((List.range R).filter (fun i =>
          decide (bridgeHash ((blocks.getD i []).take (L - 1)) =
            (blocks.getD i []).getD (L - 1) 0))).map
          (fun i => blocks.flatten.getD (i * L + j) 0))) := by
  have hflat : blocks.flatten.length = R * L := by
    rw [flatten_uniform_length blocks L hL, hlen]
  have hpos : 0 < R * L := Nat.mul_pos (by omega) (by omega)
  have h5 : 5 ≤ ([0xB7, R, V] ++ blocks.flatten ++ [0xE8]).length := by
    simp only [List.length_append, List.length_cons, List.length_nil, hflat]
    omega
  have hlast : ([0xB7, R, V] ++ blocks.flatten ++ [0xE8]).getD
      (([0xB7, R, V] ++ blocks.flatten ++ [0xE8]).length - 1) 0 = 0xE8 :=
    getD_concat_last _ _
  have hg1 : ([0xB7, R, V] ++ blocks.flatten ++ [0xE8]).getD 1 0 = R := rfl
  have hg0 : ([0xB7, R, V] ++ blocks.flatten ++ [0xE8]).getD 0 0 = 0xB7 := rfl
  have hdrop : ([0xB7, R, V] ++ blocks.flatten ++ [0xE8]).drop 3 =
      blocks.flatten ++ [0xE8] := rfl
  have hbs : blocks.flatten.length / R = L := by
    rw [hflat]
    exact Nat.mul_div_cancel_left L (by omega)
  unfold bridge_decode
  rw [if_neg (Nat.not_lt.mpr h5)]
  rw [if_neg (by rw [hg0]; simp)]
  rw [if_neg (by rw [hlast]; simp)]
  simp only []
  rw [hg1]
  rw [if_neg (by omega)]
  rw [hdrop, List.dropLast_concat, hbs]
  rw [if_neg (by omega)]
  apply congrArg
  apply List.map_congr_left
  intro j _
  exact blockVotes_structured R L blocks hlen hL hL2 j

lemma map_getD_range (l : List Nat) :
    (List.range l.length).map (fun j => l.getD j 0) = l := by
  apply List.ext_getElem
  · simp
  · intro n h1 h2
    simp only [List.getElem_map, List.getElem_range]
    exact List.getD_eq_getElem l 0 h2

/-- Claim C4: corruption of one byte inside exactly one of the `R ≥ 3`
repeated blocks of a bridge frame (header, trailer and all other blocks
untouched) is corrected by decode: the corrupted block's checksum can no
longer match (a single byte change always changes the rolling checksum, and a
corrupted checksum byte no longer matches the recomputed one), so the block
casts no votes and the remaining `R - 1 ≥ 2` identical blocks elect the
original payload at every position. -/
theorem bridge_majority_correction (R V i0 pos v : Nat) (p frame : List Nat)
    (hR3 : 3 ≤ R) (hR5 : R ≤ 5)
    (hp : ∀ b ∈ p, b < 256) (hv : v < 256)
    (hi0 : i0 < R) (hpos : pos < p.length + 1)
    (hne : v ≠ (p ++ [bridgeHash p]).getD pos 0)
    (henc : bridge_encode R V p = .ok frame) :
    bridge_decode (frame.set (3 + (i0 * (p.length + 1) + pos)) v) = .ok p := by
  by_cases hp0 : p = []
  · unfold bridge_encode at henc
    rw [if_pos hp0] at henc
    cases henc
  have hn1 : 1 ≤ p.length := by
    cases p with
    | nil => exact absurd rfl hp0
    | cons a t => simp
  unfold bridge_encode at henc
  rw [if_neg hp0] at henc
  injection henc with hfr
  subst hfr
  set L := p.length + 1 with hLdef
  set B := p ++ [bridgeHash p] with hBdef
  set blocks' := (List.replicate R B).set i0 (B.set pos v) with hblocks
  have hBlen : B.length = L := by
    rw [hBdef, hLdef]
    simp
  have huniform : ∀ b ∈ blocks', b.length = L := by
    intro b hb
    rcases List.mem_or_eq_of_mem_set hb with h | h
    · rw [List.eq_of_mem_replicate h]
      exact hBlen
    · rw [h, List.length_set]
      exact hBlen
  have hblen : blocks'.length = R := by
    rw [hblocks, List.length_set, List.length_replicate]
  have hL2 : 2 ≤ L := by omega
  have hrepL : ∀ b ∈ List.replicate R B, b.length = L := by
    intro b hb
    rw [List.eq_of_mem_replicate hb]
    exact hBlen
  have hreplen : (List.replicate R B).length = R := List.length_replicate R B
  have hgetrep : (List.replicate R B).getD i0 [] = B := by
    rw [List.getD_eq_getElem _ _ (by rw [hreplen]; omega)]
    exact List.getElem_replicate B (by rw [hreplen]; omega)
  have hset : ([0xB7, R, V] ++ (List.replicate R B).flatten ++ [0xE8]).set
      (3 + (i0 * L + pos)) v = [0xB7, R, V] ++ blocks'.flatten ++ [0xE8] := by
    have hflatlen : (List.replicate R B).flatten.length = R * L := by
      rw [flatten_uniform_length _ L hrepL, hreplen]
    have htin : i0 * L + pos < R * L := by
      have h1 : (i0 + 1) * L = i0 * L + L := by ring
      have h2 : (i0 + 1) * L ≤ R * L := Nat.mul_le_mul_right L (by omega)
      omega
    rw [List.set_append, if_pos (by
      simp only [List.length_append, List.length_cons, List.length_nil, hflatlen]
      omega)]
    rw [List.set_append, if_neg (by simp)]
    have harith : 3 + (i0 * L + pos) - ([0xB7, R, V] : List Nat).length = i0 * L + pos := by
      simp
    rw [harith]
    rw [flatten_uniform_set (List.replicate R B) L hrepL i0 pos v (by omega) (by omega)]
    rw [hgetrep]
  rw [hset]
  rw [bridge_decode_structured R V L blocks' hblen huniform (by omega) hL2]
  have hgetB : ∀ i, i < R → i ≠ i0 → blocks'.getD i [] = B := by
    intro i hiR hne'
    rw [hblocks]
    rw [List.getD_eq_getElem _ _ (by rw [List.length_set, hreplen]; omega)]
    rw [List.getElem_set_ne (fun h => hne' h.symm) (by rw [List.length_set, hreplen]; omega)]
    exact List.getElem_replicate B (by rw [hreplen]; omega)
  have hgetB0 : blocks'.getD i0 [] = B.set pos v := by
    rw [hblocks]
    rw [List.getD_eq_getElem _ _ (by rw [List.length_set, hreplen]; omega)]
    exact List.getElem_set_self (by rw [List.length_set, hreplen]; omega)
  have htakeB : B.take (L - 1) = p := by
    have h1 : L - 1 = p.length := by omega
    rw [h1, hBdef]
    exact List.take_left' rfl
  have hgetDB : B.getD (L - 1) 0 = bridgeHash p := by
    rw [hBdef, show L - 1 = (p ++ [bridgeHash p]).length - 1 by simp [hLdef]]
    exact getD_concat_last p (bridgeHash p)
  have hpredB : decide (bridgeHash (B.take (L - 1)) = B.getD (L - 1) 0) = true := by
    rw [htakeB, hgetDB]
    exact decide_eq_true rfl
  have hpred0 : decide (bridgeHash ((B.set pos v).take (L - 1)) =
      (B.set pos v).getD (L - 1) 0) = false := by
    by_cases hcase : pos < p.length
    · have ht : (B.set pos v).take (L - 1) = p.set pos v := by
        rw [List.set_take, htakeB]
      have hg : (B.set pos v).getD (L - 1) 0 = bridgeHash p := by
        rw [List.getD_eq_getElem _ _ (by rw [List.length_set]; omega)]
        rw [List.getElem_set_ne (by omega : pos ≠ L - 1) (by rw [List.length_set]; omega)]
        rw [← List.getD_eq_getElem B 0 (by omega)]
        exact hgetDB
      rw [ht, hg]
      apply decide_eq_false
      have hvne : v ≠ p.getD pos 0 := by
        rw [List.getD_append p [bridgeHash p] 0 pos hcase] at hne
        exact hne
      exact bridgeHash_set_ne p pos v hp hv hcase hvne
    · have hpeq : pos = p.length := by omega
      have ht : (B.set pos v).take (L - 1) = p := by
        rw [List.set_take, htakeB]
        exact set_oob p pos v (by omega)
      have hg : (B.set pos v).getD (L - 1) 0 = v := by
        rw [List.getD_eq_getElem _ _ (by rw [List.length_set]; omega)]
        have h1 : L - 1 = pos := by omega
        exact h1 ▸ List.getElem_set_self (by rw [List.length_set]; omega)
      rw [ht, hg]
      apply decide_eq_false
      intro hcontr
      apply hne
      rw [show pos = (p ++ [bridgeHash p]).length - 1 by simp [hpeq]]
      rw [getD_concat_last p (bridgeHash p)]
      exact hcontr.symm
  have hPeq : ∀ i ∈ List.range R,
      (decide (bridgeHash ((blocks'.getD i []).take (L - 1)) =
        (blocks'.getD i []).getD (L - 1) 0)) = decide ¬(i = i0) := by
    intro i hi
    have hiR := List.mem_range.mp hi
    by_cases hii : i = i0
    · subst hii
      rw [hgetB0, hpred0]
      simp
    · rw [hgetB i hiR hii, hpredB]
      symm
      exact decide_eq_true hii
  rw [List.map_congr_left (fun j _ => by
    rw [List.filter_congr hPeq] :
    ∀ j ∈ List.range (L - 1), _ = ((List.range R).filter (fun i => decide ¬(i = i0))).map
      (fun i => blocks'.flatten.getD (i * L + j) 0))]
  have hwit : (if i0 = 0 then 1 else 0) ∈
      (List.range R).filter (fun i => decide ¬(i = i0)) := by
    apply List.mem_filter.mpr
    constructor
    · apply List.mem_range.mpr
      split_ifs <;> omega
    · apply decide_eq_true
      split_ifs with h0 <;> omega
  have hfne : (List.range R).filter (fun i => decide ¬(i = i0)) ≠ [] :=
    List.ne_nil_of_mem hwit
  have hvoteval : ∀ j, j < L - 1 → ∀ x ∈ ((List.range R).filter
      (fun i => decide ¬(i = i0))).map (fun i => blocks'.flatten.getD (i * L + j) 0),
      x = p.getD j 0 := by
    intro j hj x hx
    obtain ⟨i, hif, rfl⟩ := List.mem_map.mp hx
    obtain ⟨hir, hid⟩ := List.mem_filter.mp hif
    have hiR : i < R := List.mem_range.mp hir
    have hii : i ≠ i0 := of_decide_eq_true hid
    rw [flatten_uniform_getD blocks' L i j huniform (by omega) (by omega)]
    rw [hgetB i hiR hii, hBdef]
    exact List.getD_append p [bridgeHash p] 0 j (by omega)
  rw [collectMajority_ok _ (by
    intro w hw
    obtain ⟨j, hjr, rfl⟩ := List.mem_map.mp hw
    intro hwnil
    exact hfne (List.map_eq_nil_iff.mp hwnil))]
  rw [List.map_map]
  have hfinal : ∀ j ∈ List.range (L - 1),
      (majorityByte ∘ fun j => ((List.range R).filter (fun i => decide ¬(i = i0))).map
        (fun i => blocks'.flatten.getD (i * L + j) 0)) j = p.getD j 0 := by
    intro j hjr
    have hj : j < L - 1 := List.mem_range.mp hjr
    apply majorityByte_const
    · intro hnil
      exact hfne (List.map_eq_nil_iff.mp hnil)
    · exact hvoteval j hj
    · have hjp : j < p.length := by omega
      rw [List.getD_eq_getElem p 0 hjp]
      exact hp _ (List.getElem_mem hjp)
  rw [List.map_congr_left hfinal]
  rw [show L - 1 = p.length by omega, map_getD_range]

/-- Claim C10: whenever the quantum decode succeeds, its output length is a
multiple of 8: the body is consumed in complete `(8 + S)`-byte blocks, each
contributing exactly 8 output bytes, and any shorter trailing remainder is
dropped. -/
theorem quantum_decode_length_multiple (QS QE : Nat) (frame out : List Nat)
    (h : surface_decode QS QE frame = .ok out) :
    out.length % 8 = 0 := by
  unfold surface_decode at h
  simp only [] at h
  split_ifs at h with h1 h2 h3 h4
  injection h with hout
  subst hout
  set S := frame.getD 2 0 with hS
  set body := (frame.drop 3).dropLast with hbody
  set bs := 8 + S with hbs
  set nb := body.length / bs with hnb
  rw [List.length_flatten]
  have hlen8 : ∀ x ∈ (List.range nb).map (fun i =>
      if (i + 1) * bs ≤ body.length then
        surfaceBlock S ((body.drop (i * bs)).take 8) ((body.drop (i * bs + 8)).take S)
      else []), x.length = 8 := by
    intro x hx
    obtain ⟨i, hir, rfl⟩ := List.mem_map.mp hx
    have hi : i < nb := List.mem_range.mp hir
    have hle : (i + 1) * bs ≤ body.length := by
      calc (i + 1) * bs ≤ nb * bs := Nat.mul_le_mul_right bs (by omega)
        _ ≤ body.length := Nat.div_mul_le_self _ _
    rw [if_pos hle]
    have harith : (i + 1) * bs = i * bs + bs := by ring
    have hdatalen : ((body.drop (i * bs)).take 8).length = 8 := by
      rw [List.length_take, List.length_drop]
      omega
    unfold surfaceBlock
    split_ifs
    · rw [List.length_map, List.enum_length]
      exact hdatalen
    · exact hdatalen
  have hmap : ((List.range nb).map (fun i =>
      if (i + 1) * bs ≤ body.length then
        surfaceBlock S ((body.drop (i * bs)).take 8) ((body.drop (i * bs + 8)).take S)
      else [])).map List.length = List.replicate nb 8 := by
    apply List.eq_replicate_iff.mpr
    constructor
    · simp
    · intro x hx
      obtain ⟨y, hy, rfl⟩ := List.mem_map.mp hx
      exact hlen8 y hy
  rw [hmap, List.sum_const_nat]
  exact Nat.mul_mod_left nb 8

/-- Witness for C10: a minimal well-formed quantum frame whose body is shorter
than one block decodes to the empty output, of length `0 ≡ 0 (mod 8)`. -/
theorem quantum_decode_length_multiple_witness :
    ([] : List Nat).length % 8 = 0 :=
  quantum_decode_length_multiple 81 69 [81, 3, 1, 5, 69] [] rfl

/-- Witness for C4: a triple-redundancy frame for payload `[10]` with the data
byte of the middle block overwritten by `7` still decodes to `[10]`. -/
theorem bridge_majority_correction_witness :
    bridge_decode ([0xB7, 3, 2, 10, 20, 10, 20, 10, 20, 0xE8].set 5 7) = .ok [10] :=
  bridge_majority_correction 3 2 1 0 7 [10] [0xB7, 3, 2, 10, 20, 10, 20, 10, 20, 0xE8]
    (by decide) (by decide) (by decide) (by decide) (by decide) (by decide) (by decide) rfl

example : bridge_encode 3 2 [10] = .ok [0xB7, 3, 2, 10, 20, 10, 20, 10, 20, 0xE8] := rfl

example : bridge_decode [0xB7, 3, 2, 10, 20, 10, 20, 10, 20, 0xE8] = .ok [10] := rfl

example : bridge_decode [0xB7, 3, 2, 10, 20, 7, 20, 10, 20, 0xE8] = .ok [10] := rfl

example : bridge_decode [0xB7, 1, 1, 5, 9, 0xE8] = .error Uncorrectable := rfl

example : bridge_check [0xB7, 3, 2, 10, 20, 10, 20, 10, 20, 0xE8] = false := rfl
